import Mathlib

/-!
Shallow embedding of the mcp-shell-server execution core
(`command_validator.py`, `command_preprocessor.py`, `shell_executor.py`,
`io_redirection_handler.py`, `directory_manager.py`, `process_manager.py`).

Python strings are modelled as Lean `String` (a structure over `List Char`);
Python `str.strip()` is `pyStrip`, `str.split(sep)` is `pySplit`, and truthiness
of a string is the test `≠ ""`.  Python exceptions that carry a message are
modelled with `Except String` (the message is `str(e)`); the bare
`asyncio.TimeoutError` raised on timeout has `str(e) = ""`, modelled by `PyExc`.
Compiled regular expressions are modelled by the language they accept in full
(`Pattern.lang`); Python `pattern.match(s)` succeeds iff the pattern matches
some prefix of `s` (it is anchored at the start only), which is `reMatch`;
`pattern.fullmatch(s)` would be `Pattern.lang s` itself.
-/

/-- Python `str.strip()`: drop leading and trailing whitespace. -/
def pyStrip (s : String) : String :=
  ⟨((s.data.dropWhile Char.isWhitespace).reverse.dropWhile Char.isWhitespace).reverse⟩

/-- Split a character list at every occurrence of `sep` (Python `str.split(sep)`
on a one-character separator: `"a|b" ↦ ["a","b"]`, `"|" ↦ ["",""]`, `"" ↦ [""]`). -/
def splitChars (sep : Char) : List Char → List (List Char)
  | [] => [[]]
  | c :: rest =>
    let r := splitChars sep rest
    if c = sep then [] :: r
    else
      match r with
      | h :: t => (c :: h) :: t
      | [] => [[c]]

/-- Python `s.split(sep)` for a one-character separator. -/
def pySplit (s : String) (sep : Char) : List String :=
  (splitChars sep s.data).map (fun cs => ⟨cs⟩)

/-- A compiled regular expression, modelled by the set of strings it matches in
full.  `re.compile` details are irrelevant: only the accepted language matters. -/
structure Pattern where
  lang : String → Bool

/-- Python `pattern.match(s)`: succeeds iff the pattern matches some prefix of
`s` — `re.match` is anchored at the start of the string only. -/
def reMatch (p : Pattern) (s : String) : Bool :=
  (List.range (s.data.length + 1)).any fun i => p.lang ⟨s.data.take i⟩

/-- The allow-policy: the set of exact command names from
`ALLOW_COMMANDS`/`ALLOWED_COMMANDS` (a Python `set`, modelled as a list queried
by membership) and the compiled patterns from `ALLOW_PATTERNS`. -/
structure Policy where
  allowedCommands : List String
  patterns : List Pattern

/-- `CommandValidator.is_command_allowed`: strip the name, test exact set
membership, then test `pattern.match` against each compiled pattern. -/
def isCommandAllowed (policy : Policy) (command : String) : Bool :=
  let cmd := pyStrip command
  policy.allowedCommands.contains cmd || policy.patterns.any fun p => reMatch p cmd

/-- The spec's reading of `IsAllowed` ("each pattern anchored/matched against
the full string"): exact membership or a *full* anchored match of one pattern.
Stated only to be compared with `isCommandAllowed`, which embeds the source. -/
def isCommandAllowedSpecFull (policy : Policy) (command : String) : Bool :=
  let cmd := pyStrip command
  policy.allowedCommands.contains cmd || policy.patterns.any fun p => p.lang cmd

/-- `CommandValidator.validate_no_shell_operators`. -/
def validateNoShellOperators (cmd : String) : Except String Unit :=
  if cmd = ";" ∨ cmd = "&&" ∨ cmd = "||" ∨ cmd = "|" then
    .error s!"Unexpected shell operator: {cmd}"
  else .ok ()

/-- Loop body of `CommandValidator.validate_pipeline`: walk the token list
accumulating the current stage; at `|` the stage must be non-empty and its head
allowed; `;`/`&&`/`||` are rejected; at the end a non-empty final stage has its
head checked. -/
def validatePipelineGo (policy : Policy) (current : List String) :
    List String → Except String Unit
  | [] =>
    match current with
    | [] => .ok ()
    | c0 :: _ =>
      if ¬ isCommandAllowed policy c0 then .error s!"Command not allowed: {c0}"
      else .ok ()
  | token :: rest =>
    if token = "|" then
      match current with
      | [] => .error "Empty command before pipe operator"
      | c0 :: _ =>
        if ¬ isCommandAllowed policy c0 then .error s!"Command not allowed: {c0}"
        else validatePipelineGo policy [] rest
    else if token = ";" ∨ token = "&&" ∨ token = "||" then
      .error s!"Unexpected shell operator in pipeline: {token}"
    else validatePipelineGo policy (current ++ [token]) rest

/-- `CommandValidator.validate_pipeline`. -/
def validatePipeline (policy : Policy) (commands : List String) : Except String Unit :=
  validatePipelineGo policy [] commands

/-- `CommandValidator.validate_command`: empty command, then empty policy, then
the stripped head against `is_command_allowed`. -/
def validateCommand (policy : Policy) (command : List String) : Except String Unit :=
  match command with
  | [] => .error "Empty command"
  | c0 :: _ =>
    if policy.allowedCommands.isEmpty ∧ policy.patterns.isEmpty then
      .error "No commands are allowed. Please set ALLOW_COMMANDS environment variable."
    else
      let cleanedCmd := pyStrip c0
      if ¬ isCommandAllowed policy cleanedCmd then
        .error s!"Command not allowed: {cleanedCmd}"
      else .ok ()

/-- `ShellExecutor._preprocess_command` / `CommandPreProcessor.preprocess_command`:
protect `||`/`&&`/`;`; for a token containing `|` (other than `|` itself) emit
its stripped non-empty parts followed by one `|` token; otherwise pass through. -/
def preprocessCommand (command : List String) : List String :=
  command.flatMap fun token =>
    if token = "||" ∨ token = "&&" ∨ token = ";" then [token]
    else if token.data.contains '|' ∧ token ≠ "|" then
      (((pySplit token '|').map pyStrip).filter (fun part => part ≠ "")) ++ ["|"]
    else [token]

/-- `ShellExecutor._clean_command`: drop empty strings, keep all-whitespace
arguments. -/
def cleanCommand (command : List String) : List String :=
  command.filter fun arg => arg ≠ ""

/-- Loop body of the pipeline splitter inlined in `ShellExecutor.execute`
(lines 390-402): cut at `|` tokens, raising on an empty stage before a pipe;
an empty trailing stage is silently dropped. -/
def splitInExecuteGo (acc : List (List String)) (current : List String) :
    List String → Except String (List (List String))
  | [] => .ok (if current ≠ [] then acc ++ [current] else acc)
  | token :: rest =>
    if token = "|" then
      match current with
      | [] => .error "Empty command before pipe operator"
      | _ => splitInExecuteGo (acc ++ [current]) [] rest
    else splitInExecuteGo acc (current ++ [token]) rest

/-- The pipeline splitter inlined in `ShellExecutor.execute`. -/
def splitInExecute (tokens : List String) : Except String (List (List String)) :=
  splitInExecuteGo [] [] tokens

/-- Redirection spec extracted from a stage (`{"stdin": ..., "stdout": ...,
"stdout_append": ...}`). -/
structure Redirects where
  stdin : Option String
  stdout : Option String
  stdoutAppend : Bool
deriving DecidableEq, Repr

/-- Loop body of `ShellExecutor._parse_command`: shell operators are rejected;
`>`/`>>` require a following non-operator path; `<` requires a following path
but does not check whether it is an operator; other tokens accumulate. -/
def parseCommandGo (cmd : List String) (rd : Redirects) :
    List String → Except String (List String × Redirects)
  | [] => .ok (cmd, rd)
  | token :: rest =>
    if token = "|" ∨ token = ";" ∨ token = "&&" ∨ token = "||" then
      .error s!"Unexpected shell operator: {token}"
    else if token = ">" ∨ token = ">>" then
      match rest with
      | [] => .error "Missing path for output redirection"
      | path :: rest2 =>
        if path = ">" ∨ path = ">>" ∨ path = "<" then
          .error "Invalid redirection target: operator found"
        else parseCommandGo cmd { rd with stdout := some path, stdoutAppend := token = ">>" } rest2
    else if token = "<" then
      match rest with
      | [] => .error "Missing path for input redirection"
      | path :: rest2 => parseCommandGo cmd { rd with stdin := some path } rest2
    else parseCommandGo (cmd ++ [token]) rd rest

/-- `ShellExecutor._parse_command` (the parser used by `execute`). -/
def parseCommand (command : List String) : Except String (List String × Redirects) :=
  parseCommandGo [] ⟨none, none, false⟩ command

/-- Loop body of `IORedirectionHandler.validate_redirection_syntax`: reject a
redirection operator whose previous token is a truthy redirection operator. -/
def validateRedirectionSyntaxGo (prev : Option String) :
    List String → Except String Unit
  | [] => .ok ()
  | token :: rest =>
    if token = ">" ∨ token = ">>" ∨ token = "<" then
      match prev with
      | some p =>
        if p ≠ "" ∧ (p = ">" ∨ p = ">>" ∨ p = "<") then
          .error "Invalid redirection syntax: consecutive operators"
        else validateRedirectionSyntaxGo (some token) rest
      | none => validateRedirectionSyntaxGo (some token) rest
    else validateRedirectionSyntaxGo (some token) rest

/-- `IORedirectionHandler.validate_redirection_syntax` (also
`ShellExecutor._validate_redirection_syntax`, identical code). -/
def validateRedirectionSyntax (command : List String) : Except String Unit :=
  validateRedirectionSyntaxGo none command

/-- Loop body of `IORedirectionHandler.process_redirections`: like
`_parse_command` but with no shell-operator rejection and with an
operator-target check on *both* `>`/`>>` and `<` (message
"Invalid redirection syntax"). -/
def ioProcessRedirectionsGo (cmd : List String) (rd : Redirects) :
    List String → Except String (List String × Redirects)
  | [] => .ok (cmd, rd)
  | token :: rest =>
    if token = ">" ∨ token = ">>" then
      match rest with
      | [] => .error "Missing path for output redirection"
      | path :: rest2 =>
        if path = ">" ∨ path = ">>" ∨ path = "<" then
          .error "Invalid redirection syntax"
        else ioProcessRedirectionsGo cmd { rd with stdout := some path, stdoutAppend := token = ">>" } rest2
    else if token = "<" then
      match rest with
      | [] => .error "Missing path for input redirection"
      | path :: rest2 =>
        if path = ">" ∨ path = ">>" ∨ path = "<" then
          .error "Invalid redirection syntax"
        else ioProcessRedirectionsGo cmd { rd with stdin := some path } rest2
    else ioProcessRedirectionsGo (cmd ++ [token]) rd rest

/-- `IORedirectionHandler.process_redirections`: validate the redirection
syntax (this raises "consecutive operators" on adjacent operator tokens before
the per-target checks can run), then extract the redirections. -/
def ioProcessRedirections (command : List String) : Except String (List String × Redirects) :=
  match validateRedirectionSyntax command with
  | .error e => .error e
  | .ok _ => ioProcessRedirectionsGo [] ⟨none, none, false⟩ command

/-- Outcome of one spawned process's `communicate` call, supplied by the OS
world: either it finishes with captured stdout/stderr, an exit code and a
wall-clock duration, or `communicate` itself raises an exception (whose
`str(e)` is `msg`) after `duration` units. -/
inductive Outcome where
  | finished (stdout stderr : String) (rc : Int) (duration : Nat)
  | raised (msg : String) (duration : Nat)

/-- A Python exception as observed through `str(e)`: `ValueError`/`IOError`
carry their message; a bare `asyncio.TimeoutError()` has `str(e) = ""`. -/
inductive PyExc where
  | valueError (msg : String)
  | timeoutError
deriving DecidableEq, Repr

/-- `str(e)` for an exception caught by a generic `except Exception as e`. -/
def strExc : PyExc → String
  | .valueError msg => msg
  | .timeoutError => ""

/-- `asyncio.wait_for(fut, timeout)`: raises `TimeoutError` iff a timeout was
given and the future takes longer. -/
def waitForTimesOut (timeout : Option Nat) (duration : Nat) : Bool :=
  match timeout with
  | none => false
  | some t => t < duration

/-- Python truthiness of the `timeout` argument (`if timeout:`): `None` and
`0` are falsy. -/
def timeoutTruthy (timeout : Option Nat) : Bool :=
  match timeout with
  | none => false
  | some t => t ≠ 0

/-- The OS world one call runs against: the policy compiled from the
environment variables, the predicates consulted by the directory checks, the
current working directory (for `os.path.abspath`), file contents for input
redirections (`.error` carries the `IOError` text), open results for output
redirections (`some` carries the `IOError` text, `none` is success), and the
`communicate` outcome of the k-th process the call spawns. -/
structure Env where
  policy : Policy
  pathExists : String → Bool
  pathIsDir : String → Bool
  pathAccessible : String → Bool
  cwd : String
  readFile : String → Except String String
  openOut : String → Option String
  outcome : Nat → Outcome

/-- `os.path.isabs` on POSIX: the path starts with a slash. -/
def osPathIsAbs (s : String) : Bool :=
  match s.data with
  | '/' :: _ => true
  | _ => false

/-- `os.path.join(base, path)` for a relative `path` as used on redirection
targets. -/
def pathJoin (base path : String) : String := base ++ "/" ++ path

/-- `DirectoryManager.get_absolute_path`: an absolute path is returned as is, a
relative one is joined to the base directory, or resolved against the process
working directory (`os.path.abspath`) when no base is given. -/
def getAbsolutePath (env : Env) (path : String) (base : Option String) : String :=
  if osPathIsAbs path then path
  else
    match base with
    | some b => if b ≠ "" then pathJoin b path else pathJoin env.cwd path
    | none => pathJoin env.cwd path

/-- `DirectoryManager.validate_directory`: required, absolute, exists, is a
directory, readable+executable — checked in this order. -/
def validateDirectory (env : Env) (directory : Option String) : Except String Unit :=
  match directory with
  | none => .error "Directory is required"
  | some d =>
    if ¬ osPathIsAbs d then .error s!"Directory must be an absolute path: {d}"
    else if ¬ env.pathExists d then .error s!"Directory does not exist: {d}"
    else if ¬ env.pathIsDir d then .error s!"Not a directory: {d}"
    else if ¬ env.pathAccessible d then .error s!"Directory is not accessible: {d}"
    else .ok ()

/-- The result dict returned by `execute` / `_execute_pipeline`.  The
`execution_time` entry (wall-clock seconds) is not modelled; `directory` is
`none` on the return paths whose dict carries no "directory" key. -/
structure ExecResult where
  error : Option String
  status : Int
  stdout : String
  stderr : String
  directory : Option String
deriving DecidableEq, Repr

/-- Observable side effects of one call: processes spawned, output-redirection
file handles opened, explicit `close()` calls performed on them, and the exit
code of the last process whose `communicate` ran to completion. -/
structure Trace where
  spawned : Nat
  opens : Nat
  closes : Nat
  lastCompleted : Option Int
deriving DecidableEq, Repr

/-- The trace of a call that has performed no side effect yet. -/
def Trace.empty : Trace := ⟨0, 0, 0, none⟩

/-- A subprocess stdout target: `asyncio.subprocess.PIPE` (an int) or an opened
file object. -/
inductive StdoutHandle where
  | pipe
  | file
deriving DecidableEq, Repr

/-- The guard `isinstance(handle, IO)` with `IO` imported from `typing`
(shell_executor.py lines 517, 538, 674): at runtime a built-in file object
(`io.TextIOWrapper`) is not an instance of the plain `typing.IO` class, and
`PIPE` is an int, so the test evaluates to `False` in both cases and the close
calls it guards never run. -/
def isinstanceTypingIOGuard : StdoutHandle → Bool
  | .pipe => false
  | .file => false

/-- The operator scan of `execute` (lines 417-427): the first
`validate_no_shell_operators` failure, if any. -/
def firstOperatorError : List String → Option String
  | [] => none
  | t :: rest =>
    match validateNoShellOperators t with
    | .error e => some e
    | .ok _ => firstOperatorError rest

/-- Accumulated state of `_execute_pipeline`'s preparation loop
(lines 574-598). -/
structure PipelinePrep where
  parsedCommands : List (List String)
  firstStdin : Option String
  lastStdoutIsFile : Bool
  opens : Nat
deriving Repr

/-- The statement `if commands.index(cmd) == 0 and redirects["stdin"]: ...`
(lines 582-587): at stage index 0, read the input-redirection file into the
pipeline's first stdin (a `with open` block, closed by the context manager);
otherwise keep the current value. -/
def pipelinePrepStdin (env : Env) (directory : String) (idx : Nat)
    (redirects : Redirects) (cur : Option String) : Except String (Option String) :=
  match redirects.stdin with
  | some p =>
    if idx = 0 ∧ p ≠ "" then
      match env.readFile (getAbsolutePath env p (some directory)) with
      | .error io => .error io
      | .ok contents => .ok (some contents)
    else .ok cur
  | none => .ok cur

/-- The statement `if commands.index(cmd) == len(commands) - 1 and
redirects["stdout"]: ...` (lines 589-598): at the last stage index the output
redirection file is opened **twice** — lines 593-598 are two consecutive
`open` calls, the file object of the first being overwritten and never closed.
Returns whether a file handle is now held and how many opens were performed;
a raised `IOError` carries the number of opens that succeeded before it. -/
def pipelinePrepStdout (env : Env) (directory : String) (idx len : Nat)
    (redirects : Redirects) : Except (String × Nat) (Bool × Nat) :=
  match redirects.stdout with
  | some p =>
    if idx = len - 1 ∧ p ≠ "" then
      match env.openOut (getAbsolutePath env p (some directory)) with
      | some io => .error (io, 0)
      | none =>
        match env.openOut (getAbsolutePath env p (some directory)) with
        | some io => .error (io, 1)
        | none => .ok (true, 2)
    else .ok (false, 0)
  | none => .ok (false, 0)

/-- Preparation loop of `_execute_pipeline` (lines 574-598): parse each stage,
then run the first-stdin and last-stdout steps.  Stage positions come from
`commands.index(cmd)`, the index of the first *equal* stage list.  A raised
exception is returned with the number of output handles opened so far. -/
def pipelinePrepGo (env : Env) (commands : List (List String)) (directory : String) :
    List (List String) → PipelinePrep → Except (String × Nat) PipelinePrep
  | [], st => .ok st
  | cmd :: rest, st =>
    match parseCommand cmd with
    | .error e => .error (e, st.opens)
    | .ok (parsedCmd, redirects) =>
      let st1 := { st with parsedCommands := st.parsedCommands ++ [parsedCmd] }
      let idx := commands.indexOf cmd
      match pipelinePrepStdin env directory idx redirects st1.firstStdin with
      | .error e => .error (e, st1.opens)
      | .ok fs =>
        match pipelinePrepStdout env directory idx commands.length redirects with
        | .error (e, n) => .error (e, st1.opens + n)
        | .ok (isFile, n) =>
          pipelinePrepGo env commands directory rest
            { st1 with firstStdin := fs,
                       lastStdoutIsFile := st1.lastStdoutIsFile || isFile,
                       opens := st1.opens + n }

/-- Execution loop of `_execute_pipeline` (lines 605-642): spawn stage `k`,
communicate under `asyncio.wait_for`, thread the captured stdout into the next
stage, accumulate stderr, and raise the generic
`Command failed with exit code N` `ValueError` on any non-zero exit code —
the stage's stderr text is never used for the message.  A stage that times out
is killed and the bare `TimeoutError` re-raised. -/
def pipelineRunGo (env : Env) (timeout : Option Nat) (total : Nat) :
    List (List String) → Nat → Option String → String → String → Option Int → Trace →
    Except (PyExc × Trace) (String × String × Option Int × Trace)
  | [], _, _, finalStdout, finalStderr, lastRc, tr =>
    .ok (finalStdout, finalStderr, lastRc, tr)
  | _cmd :: rest, k, _prevStdout, finalStdout, finalStderr, _lastRc, tr =>
    let tr1 := { tr with spawned := tr.spawned + 1 }
    match env.outcome k with
    | .raised msg dur =>
      if waitForTimesOut timeout dur then .error (.timeoutError, tr1)
      else .error (.valueError msg, tr1)
    | .finished out err rc dur =>
      if waitForTimesOut timeout dur then .error (.timeoutError, tr1)
      else
        let finalStdout2 := if k = total - 1 then out else finalStdout
        let finalStderr2 := finalStderr ++ err
        let tr2 := { tr1 with lastCompleted := some rc }
        if rc ≠ 0 then
          .error (.valueError s!"Command failed with exit code {rc}", tr2)
        else
          pipelineRunGo env timeout total rest (k + 1) (some out) finalStdout2 finalStderr2 (some rc) tr2

/-- `ShellExecutor._execute_pipeline` (lines 563-675).  The
`except Exception` handler at line 659 converts any raised exception into an
error dict with `status = 1` and `error = str(e)` — the empty string for the
bare `TimeoutError`.  The `finally` block closes the output handle only under
`isinstance(last_stdout, IO)`, which is false for real file objects, so
`closes` never increases. -/
def executePipelineFn (env : Env) (commands : List (List String)) (directory : String)
    (timeout : Option Nat) : ExecResult × Trace :=
  match pipelinePrepGo env commands directory commands ⟨[], none, false, 0⟩ with
  | .error (e, opens) =>
    ({ error := some e, status := 1, stdout := "", stderr := e, directory := none },
     { spawned := 0, opens := opens, closes := 0, lastCompleted := none })
  | .ok prep =>
    let tr0 : Trace := { spawned := 0, opens := prep.opens, closes := 0, lastCompleted := none }
    let finallyCloses : Nat :=
      if prep.lastStdoutIsFile ∧ isinstanceTypingIOGuard .file = true then 1 else 0
    match pipelineRunGo env timeout prep.parsedCommands.length prep.parsedCommands 0
        prep.firstStdin "" "" none tr0 with
    | .error (exc, tr) =>
      ({ error := some (strExc exc), status := 1, stdout := "", stderr := strExc exc,
         directory := none },
       { tr with closes := tr.closes + finallyCloses })
    | .ok (finalStdout, finalStderr, lastRc, tr) =>
      ({ error := none,
         stdout := if prep.lastStdoutIsFile then "" else finalStdout,
         stderr := finalStderr,
         status := match lastRc with | some rc => rc | none => 1,
         directory := some directory },
       { tr with closes := tr.closes + finallyCloses })

/-- The single-command body of `ShellExecutor.execute` after the operator scan
(lines 429-547): parse redirections, validate the command, run the inline
directory existence checks, re-clean the *original* command, resolve the input
redirection (overriding the caller's stdin), open the output redirection file,
spawn and communicate.  A raised `ValueError`/`IOError` is returned as
`.error` together with the side effects performed so far; the success and
timeout dicts are returned as `.ok`.  The close call at line 517/538 is guarded
by `isinstance(stdout_handle, IO)` and therefore never fires. -/
def executeSingle (env : Env) (cleaned command : List String) (directory : String)
    (stdin : Option String) (timeout : Option Nat) :
    Except (String × Trace) (ExecResult × Trace) :=
  match parseCommand cleaned with
  | .error e => .error (e, Trace.empty)
  | .ok (cmd, redirects) =>
    match validateCommand env.policy cmd with
    | .error e => .error (e, Trace.empty)
    | .ok _ =>
      if directory ≠ "" ∧ ¬ env.pathExists directory then
        .ok ({ error := some s!"Directory does not exist: {directory}", status := 1,
               stdout := "", stderr := s!"Directory does not exist: {directory}",
               directory := none }, Trace.empty)
      else if directory ≠ "" ∧ ¬ env.pathIsDir directory then
        .ok ({ error := some s!"Not a directory: {directory}", status := 1,
               stdout := "", stderr := s!"Not a directory: {directory}",
               directory := none }, Trace.empty)
      else if cleanCommand command = [] then .error ("Empty command", Trace.empty)
      else
        let stdinRes : Except String (Option String) :=
          match redirects.stdin with
          | some p =>
            match env.readFile (getAbsolutePath env p (some directory)) with
            | .error io => .error s!"Failed to read input file: {io}"
            | .ok contents => .ok (some contents)
          | none => .ok stdin
        match stdinRes with
        | .error e => .error (e, Trace.empty)
        | .ok _stdin2 =>
          let outRes : Except String (StdoutHandle × Nat) :=
            match redirects.stdout with
            | some p =>
              match env.openOut (getAbsolutePath env p (some directory)) with
              | some io => .error s!"Failed to open output file: {io}"
              | none => .ok (.file, 1)
            | none => .ok (.pipe, 0)
          match outRes with
          | .error e => .error (e, Trace.empty)
          | .ok (stdoutHandle, opens) =>
            let closesOnReturn : Nat := if isinstanceTypingIOGuard stdoutHandle then 1 else 0
            match env.outcome 0 with
            | .finished out err rc dur =>
              match timeout with
              | some t =>
                if t ≠ 0 ∧ t < dur then
                  .ok ({ error := some s!"Command timed out after {t} seconds", status := -1,
                         stdout := "", stderr := s!"Command timed out after {t} seconds",
                         directory := none },
                       { spawned := 1, opens := opens, closes := closesOnReturn,
                         lastCompleted := none })
                else
                  .ok ({ error := none,
                         stdout := if redirects.stdout.isSome then "" else out,
                         stderr := err, status := rc, directory := some directory },
                       { spawned := 1, opens := opens, closes := closesOnReturn,
                         lastCompleted := some rc })
              | none =>
                .ok ({ error := none,
                       stdout := if redirects.stdout.isSome then "" else out,
                       stderr := err, status := rc, directory := some directory },
                     { spawned := 1, opens := opens, closes := closesOnReturn,
                       lastCompleted := some rc })
            | .raised msg dur =>
              match timeout with
              | some t =>
                if t ≠ 0 ∧ t < dur then
                  .ok ({ error := some s!"Command timed out after {t} seconds", status := -1,
                         stdout := "", stderr := s!"Command timed out after {t} seconds",
                         directory := none },
                       { spawned := 1, opens := opens, closes := closesOnReturn,
                         lastCompleted := none })
                else
                  .error (msg, { spawned := 1, opens := opens, closes := 0,
                                 lastCompleted := none })
              | none =>
                .error (msg, { spawned := 1, opens := opens, closes := 0,
                               lastCompleted := none })

/-- `ShellExecutor.execute` (lines 338-561) as a function of the OS world:
directory validation, preprocessing and cleaning, the pipeline branch
(validation, inline split, `_execute_pipeline`), or the single-command branch;
the `except Exception` handler at line 549 converts every exception raised in
the single-command body into an error dict with status 1. -/
def executeFn (env : Env) (command : List String) (directory : String)
    (stdin : Option String) (timeout : Option Nat) : ExecResult × Trace :=
  match validateDirectory env (some directory) with
  | .error e =>
    ({ error := some e, status := 1, stdout := "", stderr := e, directory := none },
     Trace.empty)
  | .ok _ =>
    let cleaned := cleanCommand (preprocessCommand command)
    if cleaned = [] then
      ({ error := some "Empty command", status := 1, stdout := "",
         stderr := "Empty command", directory := none }, Trace.empty)
    else if cleaned.contains "|" then
      match validatePipeline env.policy cleaned with
      | .error e =>
        ({ error := some e, status := 1, stdout := "", stderr := e, directory := none },
         Trace.empty)
      | .ok _ =>
        match splitInExecute cleaned with
        | .error e =>
          ({ error := some e, status := 1, stdout := "", stderr := e, directory := none },
           Trace.empty)
        | .ok stages => executePipelineFn env stages directory timeout
    else
      match firstOperatorError cleaned with
      | some e =>
        ({ error := some e, status := 1, stdout := "", stderr := e, directory := none },
         Trace.empty)
      | none =>
        match executeSingle env cleaned command directory stdin timeout with
        | .ok rt => rt
        | .error (e, tr) =>
          ({ error := some e, status := 1, stdout := "", stderr := e, directory := none },
           tr)

/-- Execution loop of `ProcessManager.execute_pipeline` (process_manager.py
lines 257-301): spawn stage `k`, run `execute_with_timeout` (timeout only when
the `timeout` argument is truthy), accumulate stderr; on a non-zero exit code
the raised `ValueError` carries the stage's *stripped stderr text*, falling
back to `Command failed with exit code N` only when that text is empty. -/
def pmPipelineGo (env : Env) (timeout : Option Nat) (total : Nat) (lastStdoutIsFile : Bool) :
    List String → Nat → Option String → String → String → Option Int →
    Except PyExc (String × String × Int)
  | [], _, _, finalStdout, finalStderr, lastRc =>
    .ok (finalStdout, finalStderr, match lastRc with | some rc => rc | none => 1)
  | _cmd :: rest, k, _prevStdout, finalStdout, finalStderr, _lastRc =>
    match env.outcome k with
    | .raised msg dur =>
      if timeoutTruthy timeout ∧ waitForTimesOut timeout dur then .error .timeoutError
      else .error (.valueError msg)
    | .finished out err rc dur =>
      if timeoutTruthy timeout ∧ waitForTimesOut timeout dur then .error .timeoutError
      else
        let finalStderr2 := finalStderr ++ err
        if rc ≠ 0 then
          .error (.valueError
            (if pyStrip err ≠ "" then pyStrip err else s!"Command failed with exit code {rc}"))
        else
          let finalStdout2 :=
            if k = total - 1 then (if lastStdoutIsFile then finalStdout else out)
            else finalStdout
          pmPipelineGo env timeout total lastStdoutIsFile rest (k + 1) (some out)
            finalStdout2 finalStderr2 (some rc)

/-- `ProcessManager.execute_pipeline` (lines 223-314): `execute` in
shell_executor.py never calls this function; it is exercised only by the
tests.  Process-creation failures are not modelled (the world always spawns). -/
def pmExecutePipeline (env : Env) (commands : List String) (lastStdoutIsFile : Bool)
    (timeout : Option Nat) : Except PyExc (String × String × Int) :=
  if commands.isEmpty then .error (.valueError "No commands provided")
  else pmPipelineGo env timeout commands.length lastStdoutIsFile commands 0 none "" "" none

/-- A pattern whose language is exactly the literal string `ls` (the compiled
form of the literal regex `ls`). -/
def patternLs : Pattern := ⟨fun s => s == "ls"⟩

/-- A policy with no exact names and the single allow-pattern `ls`. -/
def policyC1 : Policy := ⟨[], [patternLs]⟩

/-- A policy allowing exactly `echo` and `cat`. -/
def pEchoCat : Policy := ⟨["echo", "cat"], []⟩

/-- A benign OS world: `/tmp` is a valid directory, reads and opens succeed,
and every spawned process prints `hi`, exits 0 and finishes instantly. -/
def envA : Env :=
  { policy := pEchoCat
    pathExists := fun d => d == "/tmp"
    pathIsDir := fun d => d == "/tmp"
    pathAccessible := fun d => d == "/tmp"
    cwd := "/tmp"
    readFile := fun _ => .ok "abc"
    openOut := fun _ => none
    outcome := fun _ => .finished "hi\n" "" 0 0 }

/-- The benign world with an empty policy (no names, no patterns). -/
def envNoPolicy : Env := { envA with policy := ⟨[], []⟩ }

/-- The benign world with the policy allowing only `ls`. -/
def envOnlyLs : Env := { envA with policy := ⟨["ls"], []⟩ }

/-- The benign world where every process takes 5 time units to finish. -/
def envSlow : Env := { envA with outcome := fun _ => .finished "" "" 0 5 }

/-- The benign world where every process exits with code 2 and stderr
`boom` (and a trailing newline). -/
def envBoom : Env := { envA with outcome := fun _ => .finished "" "boom\n" 2 0 }

/-- The benign world where the first process succeeds instantly and every
later process exits with code 2 and stderr `boom`. -/
def envBoomLater : Env :=
  { envA with outcome := fun k => if k = 0 then .finished "ok\n" "" 0 0
                                  else .finished "" "boom\n" 2 0 }

/-- Flatten a list of pipeline stages into a token stream with a `|` token
between consecutive stages (the shape `validate_pipeline` and the inline
splitter consume). -/
def joinWithPipe : List (List String) → List String
  | [] => []
  | [s] => s
  | s :: rest => s ++ "|" :: joinWithPipe rest

/-- Step lemma: `_parse_command` treats a plain word (no operator) as a
command token and accumulates it. -/
theorem parseCommandGo_word (w : String) (h : ¬ (w = "|" ∨ w = ";" ∨ w = "&&" ∨ w = "||"))
    (h2 : ¬ (w = ">" ∨ w = ">>")) (h3 : w ≠ "<") (cmd : List String) (rd : Redirects)
    (rest : List String) :
    parseCommandGo cmd rd (w :: rest) = parseCommandGo (cmd ++ [w]) rd rest := by
  rw [parseCommandGo.eq_def]
  simp [h, h2, h3]

/-- C1 fails on the code: with the single allow-pattern `ls` (which matches
only a proper prefix of `lsblk`), `is_command_allowed` nevertheless returns
true for `lsblk`, because `re.match` anchors at the start of the string only,
while the claim requires such a name to be disallowed. -/
theorem c1_counterexample :
    isCommandAllowed policyC1 "lsblk" = true ∧
    policyC1.allowedCommands.contains (pyStrip "lsblk") = false ∧
    policyC1.patterns.all (fun p => ! p.lang (pyStrip "lsblk")) = true ∧
    isCommandAllowedSpecFull policyC1 "lsblk" = false :=
  ⟨rfl, rfl, rfl, rfl⟩

/-- C1 (amended): `is_command_allowed` returns true iff the stripped name is an
exact member of the allowed-command set or some compiled pattern matches a
*prefix* of the stripped name — `re.match` is anchored at the start only, so a
pattern that matches only a proper prefix still allows the command. -/
theorem c1_amended (policy : Policy) (command : String) :
    isCommandAllowed policy command = true ↔
      (pyStrip command ∈ policy.allowedCommands ∨
       ∃ p ∈ policy.patterns, ∃ cs, cs <+: (pyStrip command).data ∧ p.lang ⟨cs⟩ = true) := by
  unfold isCommandAllowed reMatch
  simp only [Bool.or_eq_true, List.any_eq_true, List.mem_range]
  constructor
  · rintro (h | ⟨p, hp, i, hi, hl⟩)
    · exact Or.inl (by simpa using h)
    · exact Or.inr ⟨p, hp, (pyStrip command).data.take i, List.take_prefix _ _, hl⟩
  · rintro (h | ⟨p, hp, cs, hpre, hl⟩)
    · exact Or.inl (by simpa using h)
    · refine Or.inr ⟨p, hp, cs.length, ?_, ?_⟩
      · exact Nat.lt_succ_of_le hpre.length_le
      · rwa [← List.prefix_iff_eq_take.mp hpre]

/-- C7 fails on the code: `_parse_command` (the parser `execute` uses) accepts
the operator `>` as the input path of `<` with no error, while the symmetric
input `> <` is rejected with the invalid-target error. -/
theorem c7_counterexample :
    parseCommand ["cat", "<", ">"] = .ok (["cat"], ⟨some ">", none, false⟩) ∧
    parseCommand ["cat", ">", "<"] = .error "Invalid redirection target: operator found" :=
  ⟨rfl, rfl⟩

/-- C7 (amended): `_parse_command` accepts any operator token as the `<` input
path (only `>`/`>>` check their target), storing it as the stdin path; the
handler-side parser `IORedirectionHandler.process_redirections` does reject
`<` followed by an operator, but through the prior consecutive-operators
syntax check, not an invalid-target error. -/
theorem c7_amended (w path : String)
    (hpath : path = ">" ∨ path = ">>" ∨ path = "<")
    (hw1 : ¬ (w = "|" ∨ w = ";" ∨ w = "&&" ∨ w = "||"))
    (hw2 : ¬ (w = ">" ∨ w = ">>" ∨ w = "<")) :
    parseCommand [w, "<", path] = .ok ([w], ⟨some path, none, false⟩) ∧
    ioProcessRedirections [w, "<", path] =
      .error "Invalid redirection syntax: consecutive operators" := by
  have hw3 : ¬ (w = ">" ∨ w = ">>") := fun hc => hw2 (hc.elim Or.inl (fun a => Or.inr (Or.inl a)))
  have hw4 : w ≠ "<" := fun hc => hw2 (Or.inr (Or.inr hc))
  constructor
  · unfold parseCommand
    rw [parseCommandGo_word w hw1 hw3 hw4]
    simp [parseCommandGo]
  · unfold ioProcessRedirections validateRedirectionSyntax
    have hv : validateRedirectionSyntaxGo none [w, "<", path] =
        .error "Invalid redirection syntax: consecutive operators" := by
      rw [validateRedirectionSyntaxGo.eq_def]
      simp only [hw2, if_neg]
      rw [validateRedirectionSyntaxGo.eq_def]
      rcases hpath with hp | hp | hp <;> simp [validateRedirectionSyntaxGo, hp]
    rw [hv]

/-- Witness for `c7_amended` at `w := "cat"`, `path := ">"`. -/
theorem c7_witness :
    parseCommand ["cat", "<", ">"] = .ok (["cat"], ⟨some ">", none, false⟩) ∧
    ioProcessRedirections ["cat", "<", ">"] =
      .error "Invalid redirection syntax: consecutive operators" :=
  c7_amended "cat" ">" (by decide) (by decide) (by decide)

/-- C8 fails on the code: the glued token `a|b` is expanded to its parts
followed by a single trailing `|` token, not to the parts separated by a `|`
token as the claim states. -/
theorem c8_counterexample :
    preprocessCommand ["a|b"] = ["a", "b", "|"] ∧ ["a", "b", "|"] ≠ ["a", "|", "b"] :=
  ⟨rfl, by decide⟩

/-- C8 (amended): a token containing `|` (other than `|` itself and the
protected operators) is replaced by its trimmed non-empty parts followed by a
single `|` token appended unconditionally after the final part — whether or
not the token ended with `|`, and with no `|` separators between consecutive
parts; e.g. the token `a|b` yields `a`, `b`, `|`. -/
theorem c8_amended (pre post : List String) (token : String)
    (h1 : token.data.contains '|' = true) (h2 : token ≠ "|")
    (h3 : ¬ (token = "||" ∨ token = "&&" ∨ token = ";")) :
    preprocessCommand (pre ++ token :: post) =
      preprocessCommand pre ++
        ((((pySplit token '|').map pyStrip).filter (fun part => part ≠ "")) ++ ["|"]) ++
        preprocessCommand post ∧
    preprocessCommand ["a|b"] = ["a", "b", "|"] := by
  have h1m : '|' ∈ token.data := by simpa using h1
  constructor
  · unfold preprocessCommand
    rw [List.flatMap_append, List.flatMap_cons]
    simp [h1m, h2, h3]
  · rfl

/-- Witness for `c8_amended` at `pre := []`, `token := "a|b"`, `post := []`. -/
theorem c8_witness :
    preprocessCommand ([] ++ "a|b" :: []) =
      preprocessCommand [] ++
        ((((pySplit "a|b" '|').map pyStrip).filter (fun part => part ≠ "")) ++ ["|"]) ++
        preprocessCommand [] ∧
    preprocessCommand ["a|b"] = ["a", "b", "|"] :=
  c8_amended [] [] "a|b" (by decide) (by decide) (by decide)

/-- C9: with an empty policy (no names, no patterns) `validate_command`
rejects every non-empty command with the distinct no-policy-configured error,
while an empty command vector is rejected with `Empty command` under every
policy — the empty check runs before the policy is consulted. -/
theorem c9_theorem (policy : Policy) (command : List String)
    (h1 : policy.allowedCommands = []) (h2 : policy.patterns = []) :
    validateCommand policy command =
      .error (if command = [] then "Empty command"
              else "No commands are allowed. Please set ALLOW_COMMANDS environment variable.") ∧
    (∀ q : Policy, validateCommand q [] = .error "Empty command") := by
  constructor
  · cases command with
    | nil => rfl
    | cons c0 cs => simp [validateCommand, h1, h2]
  · intro q
    rfl

/-- Witness for `c9_theorem` at the empty policy and the command `["rm"]`. -/
theorem c9_witness :
    validateCommand ⟨[], []⟩ ["rm"] =
      .error (if (["rm"] : List String) = [] then "Empty command"
              else "No commands are allowed. Please set ALLOW_COMMANDS environment variable.") ∧
    (∀ q : Policy, validateCommand q [] = .error "Empty command") :=
  c9_theorem ⟨[], []⟩ ["rm"] rfl rfl

/-- On the success path of `executeSingle` the returned status is the exit
code of the completed process; every error dict it returns carries a non-zero
status. -/
theorem executeSingle_ok_inv (env : Env) (cleaned command : List String) (directory : String)
    (stdin : Option String) (timeout : Option Nat) (r : ExecResult) (tr : Trace)
    (h : executeSingle env cleaned command directory stdin timeout = .ok (r, tr)) :
    (r.error ≠ none → r.status ≠ 0) ∧ (r.error = none → tr.lastCompleted = some r.status) := by
  unfold executeSingle at h
  repeat' split at h
  all_goals simp [isinstanceTypingIOGuard] at h
  all_goals
    obtain ⟨hr, ht⟩ := h
    subst hr
    subst ht
    constructor <;> intro hc <;> simp_all

/-- A successful `pipelineRunGo` over at least one stage returns the exit code
of the last completed stage, recorded in the trace as well. -/
theorem pipelineRunGo_ok_inv (env : Env) (t : Option Nat) (total : Nat) :
    ∀ (l : List (List String)) (k : Nat) (p : Option String) (fs fe : String)
      (lr : Option Int) (tr : Trace) (a b : String) (c : Option Int) (tr2 : Trace),
      pipelineRunGo env t total l k p fs fe lr tr = .ok (a, b, c, tr2) →
      (l = [] → c = lr ∧ tr2 = tr) ∧
      (l ≠ [] → ∃ rc, c = some rc ∧ tr2.lastCompleted = some rc) := by
  intro l
  induction l with
  | nil =>
    intro k p fs fe lr tr a b c tr2 h
    simp [pipelineRunGo] at h
    obtain ⟨-, -, hc, ht⟩ := h
    subst hc
    subst ht
    exact ⟨fun _ => ⟨rfl, rfl⟩, fun hne => absurd rfl hne⟩
  | cons c0 cs ih =>
    intro k p fs fe lr tr a b c tr2 h
    unfold pipelineRunGo at h
    repeat' (first | split at h | dsimp only at h)
    all_goals try exact Except.noConfusion h
    all_goals
      refine ⟨by simp, fun _ => ?_⟩
      rcases cs with - | ⟨c1, cs'⟩
      · obtain ⟨hc, ht⟩ := (ih _ _ _ _ _ _ _ _ _ _ h).1 rfl
        subst ht
        exact ⟨_, hc, rfl⟩
      · exact (ih _ _ _ _ _ _ _ _ _ _ h).2 (by simp)

/-- `pipelinePrepGo` appends exactly one parsed stage per input stage. -/
theorem pipelinePrepGo_len (env : Env) (commands : List (List String)) (directory : String) :
    ∀ (l : List (List String)) (st prep : PipelinePrep),
      pipelinePrepGo env commands directory l st = .ok prep →
      prep.parsedCommands.length = st.parsedCommands.length + l.length := by
  intro l
  induction l with
  | nil =>
    intro st prep h
    simp [pipelinePrepGo] at h
    subst h
    simp
  | cons c cs ih =>
    intro st prep h
    unfold pipelinePrepGo at h
    repeat' (first | split at h | dsimp only at h)
    all_goals try exact Except.noConfusion h
    all_goals
      have hlen := ih _ _ h
      simp at hlen
      simp [hlen]
      omega

/-- `splitInExecuteGo` never discards the stages already accumulated. -/
theorem splitInExecuteGo_ne_of_acc_ne :
    ∀ (l : List String) (acc : List (List String)) (current : List String)
      (stages : List (List String)),
      splitInExecuteGo acc current l = .ok stages → acc ≠ [] → stages ≠ [] := by
  intro l
  induction l with
  | nil =>
    intro acc current stages h hacc
    simp [splitInExecuteGo] at h
    split at h <;> (subst h; simp_all)
  | cons t rest ih =>
    intro acc current stages h hacc
    unfold splitInExecuteGo at h
    repeat' split at h
    · exact Except.noConfusion h
    · exact ih _ _ _ h (by simp)
    · exact ih _ _ _ h hacc

/-- The inline splitter of `execute` yields at least one stage whenever the
token stream contains a `|` token. -/
theorem splitInExecute_ne (tokens : List String) (stages : List (List String))
    (hmem : "|" ∈ tokens) (h : splitInExecute tokens = .ok stages) : stages ≠ [] := by
  unfold splitInExecute at h
  revert h
  suffices hgen : ∀ (l : List String) (acc : List (List String)) (current : List String),
      "|" ∈ l → splitInExecuteGo acc current l = .ok stages → stages ≠ [] from
    fun h => hgen _ _ _ hmem h
  intro l
  induction l with
  | nil => intro acc current hm; simp at hm
  | cons t rest ih =>
    intro acc current hm h
    unfold splitInExecuteGo at h
    repeat' split at h
    · exact Except.noConfusion h
    · exact splitInExecuteGo_ne_of_acc_ne _ _ _ _ h (by simp)
    · rcases List.mem_cons.mp hm with hm | hm
      · simp_all
      · exact ih _ _ hm h

/-- `_execute_pipeline` on a non-empty stage list: a non-null error implies a
non-zero status, and a null error means the last stage's process completed and
its exit code is the reported status. -/
theorem executePipelineFn_inv (env : Env) (commands : List (List String)) (directory : String)
    (timeout : Option Nat) (hne : commands ≠ []) :
    ((executePipelineFn env commands directory timeout).1.error ≠ none →
      (executePipelineFn env commands directory timeout).1.status ≠ 0) ∧
    ((executePipelineFn env commands directory timeout).1.error = none →
      (executePipelineFn env commands directory timeout).2.lastCompleted =
        some (executePipelineFn env commands directory timeout).1.status) := by
  unfold executePipelineFn
  split
  · constructor <;> intro hc <;> simp_all
  · rename_i prep hprep
    dsimp only
    split
    · constructor <;> intro hc <;> simp_all
    · rename_i a b lastRc tr hrun
      have hlen := pipelinePrepGo_len env commands directory commands ⟨[], none, false, 0⟩ prep hprep
      have hpne : prep.parsedCommands ≠ [] := by
        intro hnil
        rw [hnil] at hlen
        simp at hlen
        rcases commands with - | ⟨c, cs⟩
        · exact hne rfl
        · simp at hlen
      obtain ⟨rc, hc, hlast⟩ :=
        (pipelineRunGo_ok_inv env timeout prep.parsedCommands.length
          prep.parsedCommands 0 prep.firstStdin "" "" none _ a b lastRc tr hrun).2 hpne
      subst hc
      constructor
      · intro hcontra
        simp_all
      · intro _
        simp [hlast]

/-- For every result of `execute` (under any OS world), a non-null error
field implies a non-zero status, and a null error field means some process ran
to completion and the reported status is that process's exit code. -/
theorem executeFn_error_status_inv (env : Env) (command : List String) (directory : String)
    (stdin : Option String) (timeout : Option Nat) :
    ((executeFn env command directory stdin timeout).1.error ≠ none →
      (executeFn env command directory stdin timeout).1.status ≠ 0) ∧
    ((executeFn env command directory stdin timeout).1.error = none →
      (executeFn env command directory stdin timeout).2.lastCompleted =
        some (executeFn env command directory stdin timeout).1.status) := by
  unfold executeFn
  split
  · constructor <;> intro hc <;> simp_all
  · dsimp only
    split
    · constructor <;> intro hc <;> simp_all
    · split
      · split
        · constructor <;> intro hc <;> simp_all
        · split
          · constructor <;> intro hc <;> simp_all
          · rename_i stages hsplit
            refine executePipelineFn_inv env stages directory timeout ?_
            refine splitInExecute_ne _ _ ?_ hsplit
            have hcontains : (cleanCommand (preprocessCommand command)).contains "|" = true := by
              assumption
            simpa using hcontains
      · split
        · constructor <;> intro hc <;> simp_all
        · split
          · rename_i rt hok
            obtain ⟨r, tr⟩ := rt
            exact executeSingle_ok_inv env _ command directory stdin timeout r tr hok
          · constructor <;> intro hc <;> simp_all

/-- On the single-command path, an `.ok` result whose process ran to
completion (a recorded exit code) always has a null error and that exit code
as its status — whatever the exit code was. -/
theorem executeSingle_completed (env : Env) (cleaned command : List String) (directory : String)
    (stdin : Option String) (timeout : Option Nat) (r : ExecResult) (tr : Trace) (rc : Int)
    (h : executeSingle env cleaned command directory stdin timeout = .ok (r, tr))
    (hc : tr.lastCompleted = some rc) :
    r.error = none ∧ r.status = rc := by
  unfold executeSingle at h
  repeat' split at h
  all_goals simp [isinstanceTypingIOGuard] at h
  all_goals
    obtain ⟨hr, ht⟩ := h
    subst hr
    subst ht
    simp_all [Trace.empty]

/-- C6 fails as stated: in the pipeline path a stage that runs to completion
with a non-zero exit code — no engine-level failure at all — produces the
non-null error `Command failed with exit code 2`, contradicting the conjunct
that a non-zero exit code of the user's command alone never produces a
non-null error. -/
theorem c6_counterexample :
    envBoom.outcome 0 = .finished "" "boom\n" 2 0 ∧
    (executeFn envBoom ["echo", "hi", "|", "cat"] "/tmp" none none).2.lastCompleted = some 2 ∧
    (executeFn envBoom ["echo", "hi", "|", "cat"] "/tmp" none none).1.error =
      some "Command failed with exit code 2" :=
  ⟨rfl, rfl, rfl⟩

/-- C6 (amended): for every result of `execute` (under any OS world), a
non-null error implies a non-zero status, and a null error implies a process
ran to completion whose exit code is the reported status; moreover on the
single-command path a completed process always yields a null error with its
exit code as the status — the guarantee that a non-zero exit code of the
user's command alone never produces a non-null error holds only there, since
the pipeline path turns a non-zero stage exit into the generic
`Command failed with exit code N` error. -/
theorem c6_amended (env : Env) (command : List String) (directory : String)
    (stdin : Option String) (timeout : Option Nat) :
    ((executeFn env command directory stdin timeout).1.error ≠ none →
      (executeFn env command directory stdin timeout).1.status ≠ 0) ∧
    ((executeFn env command directory stdin timeout).1.error = none →
      (executeFn env command directory stdin timeout).2.lastCompleted =
        some (executeFn env command directory stdin timeout).1.status) ∧
    (∀ (cleaned : List String) (r : ExecResult) (tr : Trace) (rc : Int),
      executeSingle env cleaned command directory stdin timeout = .ok (r, tr) →
      tr.lastCompleted = some rc →
      r.error = none ∧ r.status = rc) :=
  ⟨(executeFn_error_status_inv env command directory stdin timeout).1,
   (executeFn_error_status_inv env command directory stdin timeout).2,
   fun cleaned r tr rc h hc =>
     executeSingle_completed env cleaned command directory stdin timeout r tr rc h hc⟩

/-- Witness for `c6_amended`: a successful `echo hi` run, where the null error
comes with the completed process's exit code as the status. -/
theorem c6_witness :
    (executeFn envA ["echo", "hi"] "/tmp" none none).2.lastCompleted =
      some (executeFn envA ["echo", "hi"] "/tmp" none none).1.status :=
  (c6_amended envA ["echo", "hi"] "/tmp" none none).2.1 rfl

/-- C3: the claim is right and the code is wrong.  A single command that
exceeds its timeout yields status -1 with a message naming the timeout, but a
*pipeline* that exceeds its timeout is routed through the generic
`except Exception` handler: the bare `TimeoutError` stringifies to the empty
string, so the result is status 1 with an empty error message, not -1. -/
theorem c3_timeout_evaluation :
    (executeFn envSlow ["echo", "hi", "|", "cat"] "/tmp" none (some 1)).1 =
      { error := some "", status := 1, stdout := "", stderr := "", directory := none } ∧
    (executeFn envSlow ["echo", "hi"] "/tmp" none (some 1)).1 =
      { error := some "Command timed out after 1 seconds", status := -1, stdout := "",
        stderr := "Command timed out after 1 seconds", directory := none } :=
  ⟨rfl, rfl⟩

/-- C5: the claim is right and the code is wrong.  On a successful single
command with `>` redirection the output handle is opened once and closed zero
times (the guard `isinstance(stdout_handle, IO)` is false for file objects);
on a successful pipeline with a final `>` redirection the output file is
opened twice (lines 593-598) and closed zero times. -/
theorem c5_handles_evaluation :
    (executeFn envA ["echo", "hi", ">", "out.txt"] "/tmp" none none).1.error = none ∧
    (executeFn envA ["echo", "hi", ">", "out.txt"] "/tmp" none none).2.opens = 1 ∧
    (executeFn envA ["echo", "hi", ">", "out.txt"] "/tmp" none none).2.closes = 0 ∧
    (executeFn envA ["echo", "hi", "|", "cat", ">", "o.txt"] "/tmp" none none).1.error = none ∧
    (executeFn envA ["echo", "hi", "|", "cat", ">", "o.txt"] "/tmp" none none).2.opens = 2 ∧
    (executeFn envA ["echo", "hi", "|", "cat", ">", "o.txt"] "/tmp" none none).2.closes = 0 :=
  ⟨rfl, rfl, rfl, rfl, rfl, rfl⟩

/-- C2 fails as stated: with an *empty* policy the head `rm` is not allowed,
and `execute` does return status 1 with no process spawned, but the error is
the no-policy-configured message, not `Command not allowed: rm`. -/
theorem c2_counterexample :
    isCommandAllowed envNoPolicy.policy "rm" = false ∧
    (executeFn envNoPolicy ["rm", "-rf", "/"] "/tmp" none none).1.status = 1 ∧
    (executeFn envNoPolicy ["rm", "-rf", "/"] "/tmp" none none).2.spawned = 0 ∧
    (executeFn envNoPolicy ["rm", "-rf", "/"] "/tmp" none none).1.error ≠
      some "Command not allowed: rm" := by
  refine ⟨rfl, rfl, rfl, ?_⟩
  rw [show (executeFn envNoPolicy ["rm", "-rf", "/"] "/tmp" none none).1.error =
      some "No commands are allowed. Please set ALLOW_COMMANDS environment variable." from rfl]
  decide

/-- C2 (amended): when the directory validates, the cleaned command reaches
command validation (no pipe token, no stray shell operator, redirection
parsing succeeds with a non-empty residual command), the policy is non-empty,
and the stripped head is not allowed, `execute` returns status 1 with error
`Command not allowed: <stripped head>` and spawns no process and opens no
handle (the empty trace). -/
theorem c2_amended (env : Env) (command : List String) (directory : String)
    (stdin : Option String) (timeout : Option Nat) (c0 : String) (cs : List String)
    (redirects : Redirects)
    (hdir : validateDirectory env (some directory) = .ok ())
    (hne : cleanCommand (preprocessCommand command) ≠ [])
    (hnopipe : (cleanCommand (preprocessCommand command)).contains "|" = false)
    (hnoop : firstOperatorError (cleanCommand (preprocessCommand command)) = none)
    (hparse : parseCommand (cleanCommand (preprocessCommand command)) = .ok (c0 :: cs, redirects))
    (hpol : env.policy.allowedCommands.isEmpty = false ∨ env.policy.patterns.isEmpty = false)
    (hnotallowed : isCommandAllowed env.policy (pyStrip c0) = false) :
    executeFn env command directory stdin timeout =
      ({ error := some s!"Command not allowed: {pyStrip c0}", status := 1, stdout := "",
         stderr := s!"Command not allowed: {pyStrip c0}", directory := none }, Trace.empty) := by
  unfold executeFn executeSingle
  rw [hdir]
  simp only [hne, hnopipe, hnoop, hparse, ne_eq, not_false_eq_true, if_true, if_neg,
    Bool.false_eq_true, if_false]
  rcases hpol with hp | hp <;> simp [validateCommand, hp, hnotallowed]

/-- Witness for `c2_amended`: policy `{ls}`, command `rm -rf /`. -/
theorem c2_witness :
    executeFn envOnlyLs ["rm", "-rf", "/"] "/tmp" none none =
      ({ error := some "Command not allowed: rm", status := 1, stdout := "",
         stderr := "Command not allowed: rm", directory := none }, Trace.empty) :=
  c2_amended envOnlyLs ["rm", "-rf", "/"] "/tmp" none none "rm" ["-rf", "/"]
    ⟨none, none, false⟩ rfl (by decide) rfl rfl rfl (Or.inl rfl) rfl

/-- C4 fails as stated: a pipeline stage exits with code 2 and non-empty
stderr `boom`, yet the resulting error is the generic
`Command failed with exit code 2`, not the stage's stderr text. -/
theorem c4_counterexample :
    envBoom.outcome 0 = .finished "" "boom\n" 2 0 ∧
    (executeFn envBoom ["echo", "hi", "|", "cat"] "/tmp" none none).1.error =
      some "Command failed with exit code 2" ∧
    some "Command failed with exit code 2" ≠ some "boom\n" ∧
    some "Command failed with exit code 2" ≠ some (pyStrip "boom\n") := by
  refine ⟨rfl, rfl, by decide, by decide⟩

/-- If the first `j` stages of a run complete with exit code 0 without
timing out and stage `j` completes with a non-zero exit code, the execution
loop of `_execute_pipeline` raises the generic `ValueError` — the failing
stage's stderr never reaches the message, whatever position `j` has. -/
theorem pipelineRunGo_failAt (env : Env) (t : Option Nat) (total : Nat) :
    ∀ (l : List (List String)) (k : Nat) (p : Option String) (fs fe : String)
      (lr : Option Int) (tr : Trace) (j : Nat) (out err : String) (rc : Int) (dur : Nat),
      j < l.length →
      (∀ i, i < j → ∃ o2 e2 d2, env.outcome (k + i) = .finished o2 e2 0 d2 ∧
        waitForTimesOut t d2 = false) →
      env.outcome (k + j) = .finished out err rc dur →
      waitForTimesOut t dur = false →
      rc ≠ 0 →
      ∃ tr2, pipelineRunGo env t total l k p fs fe lr tr =
        .error (.valueError s!"Command failed with exit code {rc}", tr2) := by
  intro l
  induction l with
  | nil =>
    intro k p fs fe lr tr j out err rc dur hj
    simp at hj
  | cons c0 cs ih =>
    intro k p fs fe lr tr j out err rc dur hj hbefore hout hnt hrc
    rcases j with - | j2
    · have hout0 : env.outcome k = .finished out err rc dur := by simpa using hout
      unfold pipelineRunGo
      dsimp only
      rw [hout0]
      dsimp only
      rw [if_neg (by simp [hnt])]
      rw [if_pos hrc]
      exact ⟨_, rfl⟩
    · obtain ⟨o2, e2, d2, hoi, hdi⟩ := hbefore 0 (Nat.succ_pos j2)
      have hout0 : env.outcome k = .finished o2 e2 0 d2 := by simpa using hoi
      unfold pipelineRunGo
      dsimp only
      rw [hout0]
      dsimp only
      rw [if_neg (by simp [hdi])]
      rw [if_neg (by simp)]
      apply ih
      · simpa using Nat.lt_of_succ_lt_succ (by simpa using hj)
      · intro i hi
        obtain ⟨o3, e3, d3, ho3, hd3⟩ := hbefore (i + 1) (by omega)
        refine ⟨o3, e3, d3, ?_, hd3⟩
        have harith : k + (i + 1) = k + 1 + i := by omega
        rwa [harith] at ho3
      · have harith : k + (j2 + 1) = k + 1 + j2 := by omega
        rwa [harith] at hout
      · exact hnt
      · exact hrc

/-- `_execute_pipeline` result when stage `j` is the first to fail: the
generic message and status 1. -/
theorem executePipelineFn_failAt (env : Env) (commands : List (List String)) (directory : String)
    (timeout : Option Nat) (prep : PipelinePrep) (j : Nat) (out err : String) (rc : Int)
    (dur : Nat)
    (hprep : pipelinePrepGo env commands directory commands ⟨[], none, false, 0⟩ = .ok prep)
    (hj : j < prep.parsedCommands.length)
    (hbefore : ∀ i, i < j → ∃ o2 e2 d2, env.outcome i = .finished o2 e2 0 d2 ∧
      waitForTimesOut timeout d2 = false)
    (hout : env.outcome j = .finished out err rc dur)
    (hnt : waitForTimesOut timeout dur = false)
    (hrc : rc ≠ 0) :
    (executePipelineFn env commands directory timeout).1.error =
      some s!"Command failed with exit code {rc}" ∧
    (executePipelineFn env commands directory timeout).1.status = 1 := by
  unfold executePipelineFn
  rw [hprep]
  dsimp only
  obtain ⟨tr2, hrun⟩ := pipelineRunGo_failAt env timeout prep.parsedCommands.length
    prep.parsedCommands 0 prep.firstStdin "" "" none
    { spawned := 0, opens := prep.opens, closes := 0, lastCompleted := none } j out err rc dur
    hj (fun i hi => by simpa using hbefore i hi) (by simpa using hout) hnt hrc
  rw [hrun]
  exact ⟨rfl, rfl⟩

/-- `ProcessManager.execute_pipeline` loop when stage `j` is the first to
fail: the raised message is the stripped stderr, or the generic message only
when that is empty — at any position `j`. -/
theorem pmPipelineGo_failAt (env : Env) (timeout : Option Nat) (total : Nat) (lastOut : Bool) :
    ∀ (l : List String) (k : Nat) (p : Option String) (fs fe : String) (lr : Option Int)
      (j : Nat) (out err : String) (rc : Int) (dur : Nat),
      j < l.length →
      (∀ i, i < j → ∃ o2 e2 d2, env.outcome (k + i) = .finished o2 e2 0 d2 ∧
        ¬ (timeoutTruthy timeout = true ∧ waitForTimesOut timeout d2 = true)) →
      env.outcome (k + j) = .finished out err rc dur →
      ¬ (timeoutTruthy timeout = true ∧ waitForTimesOut timeout dur = true) →
      rc ≠ 0 →
      pmPipelineGo env timeout total lastOut l k p fs fe lr =
        .error (.valueError (if pyStrip err ≠ "" then pyStrip err
                             else s!"Command failed with exit code {rc}")) := by
  intro l
  induction l with
  | nil =>
    intro k p fs fe lr j out err rc dur hj
    simp at hj
  | cons c0 cs ih =>
    intro k p fs fe lr j out err rc dur hj hbefore hout hg hrc
    rcases j with - | j2
    · have hout0 : env.outcome k = .finished out err rc dur := by simpa using hout
      unfold pmPipelineGo
      dsimp only
      rw [hout0]
      dsimp only
      rw [if_neg hg]
      rw [if_pos hrc]
    · obtain ⟨o2, e2, d2, hoi, hg2⟩ := hbefore 0 (Nat.succ_pos j2)
      have hout0 : env.outcome k = .finished o2 e2 0 d2 := by simpa using hoi
      unfold pmPipelineGo
      dsimp only
      rw [hout0]
      dsimp only
      rw [if_neg hg2]
      rw [if_neg (by simp)]
      apply ih
      · simpa using Nat.lt_of_succ_lt_succ (by simpa using hj)
      · intro i hi
        obtain ⟨o3, e3, d3, ho3, hd3⟩ := hbefore (i + 1) (by omega)
        refine ⟨o3, e3, d3, ?_, hd3⟩
        have harith : k + (i + 1) = k + 1 + i := by omega
        rwa [harith] at ho3
      · have harith : k + (j2 + 1) = k + 1 + j2 := by omega
        rwa [harith] at hout
      · exact hg
      · exact hrc

/-- C4 (amended): in the pipeline path `execute` actually uses
(`ShellExecutor._execute_pipeline`), the first stage to complete with a
non-zero exit code — at any position `j`, after `j` cleanly completed
stages — always aborts with the generic `Command failed with exit code N`
error, whatever its stderr was; the stderr-text-with-generic-fallback
selection exists only in `ProcessManager.execute_pipeline`, which `execute`
never calls. -/
theorem c4_amended (env : Env) (commands : List (List String)) (directory : String)
    (timeout : Option Nat) (prep : PipelinePrep) (j : Nat) (out err : String) (rc : Int)
    (dur : Nat)
    (hprep : pipelinePrepGo env commands directory commands ⟨[], none, false, 0⟩ = .ok prep)
    (hj : j < prep.parsedCommands.length)
    (hbefore : ∀ i, i < j → ∃ o2 e2 d2, env.outcome i = .finished o2 e2 0 d2 ∧
      waitForTimesOut timeout d2 = false)
    (hout : env.outcome j = .finished out err rc dur)
    (hnt : waitForTimesOut timeout dur = false)
    (hrc : rc ≠ 0) :
    (executePipelineFn env commands directory timeout).1.error =
      some s!"Command failed with exit code {rc}" ∧
    (∀ (env2 : Env) (cmds2 : List String) (lastOut : Bool) (timeout2 : Option Nat)
       (j2 : Nat) (out2 err2 : String) (rc2 : Int) (dur2 : Nat),
       j2 < cmds2.length →
       (∀ i, i < j2 → ∃ o2 e2 d2, env2.outcome i = .finished o2 e2 0 d2 ∧
         ¬ (timeoutTruthy timeout2 = true ∧ waitForTimesOut timeout2 d2 = true)) →
       env2.outcome j2 = .finished out2 err2 rc2 dur2 →
       ¬ (timeoutTruthy timeout2 = true ∧ waitForTimesOut timeout2 dur2 = true) →
       rc2 ≠ 0 →
       pmExecutePipeline env2 cmds2 lastOut timeout2 =
         .error (.valueError (if pyStrip err2 ≠ "" then pyStrip err2
                              else s!"Command failed with exit code {rc2}"))) := by
  constructor
  · exact (executePipelineFn_failAt env commands directory timeout prep j out err rc dur
      hprep hj hbefore hout hnt hrc).1
  · intro env2 cmds2 lastOut timeout2 j2 out2 err2 rc2 dur2 hj2 hbefore2 hout2 hg2 hrc2
    unfold pmExecutePipeline
    rcases cmds2 with - | ⟨d0, ds⟩
    · simp at hj2
    · simp only [List.isEmpty_cons, Bool.false_eq_true, if_false]
      exact pmPipelineGo_failAt env2 timeout2 (d0 :: ds).length lastOut (d0 :: ds) 0
        none "" "" none j2 out2 err2 rc2 dur2 hj2
        (fun i hi => by simpa using hbefore2 i hi) (by simpa using hout2) hg2 hrc2

/-- Witness for `c4_amended`: a two-stage pipeline whose *second* stage
(`j = 1`) exits 2 with stderr `boom` after a cleanly completed first stage. -/
theorem c4_witness :
    (executePipelineFn envBoomLater [["echo", "hi"], ["cat"]] "/tmp" none).1.error =
      some "Command failed with exit code 2" ∧
    pmExecutePipeline envBoomLater ["echo hi", "cat"] false none =
      .error (.valueError "boom") := by
  obtain ⟨h1, h2⟩ := c4_amended envBoomLater [["echo", "hi"], ["cat"]] "/tmp" none
    ⟨[["echo", "hi"], ["cat"]], none, false, 0⟩ 1 "" "boom\n" 2 0 rfl (by decide)
    (fun i hi => by
      have hi0 : i = 0 := by omega
      subst hi0
      exact ⟨"ok\n", "", 0, rfl, rfl⟩)
    rfl rfl (by decide)
  exact ⟨h1, h2 envBoomLater ["echo hi", "cat"] false none 1 "" "boom\n" 2 0 (by decide)
    (fun i hi => by
      have hi0 : i = 0 := by omega
      subst hi0
      exact ⟨"ok\n", "", 0, rfl, by decide⟩)
    rfl (by decide) (by decide)⟩

/-- `validate_pipeline` walks an operator-free stage by accumulating it. -/
theorem validatePipelineGo_stage (policy : Policy) :
    ∀ (s cur rest : List String),
      (∀ t ∈ s, t ≠ "|" ∧ t ≠ ";" ∧ t ≠ "&&" ∧ t ≠ "||") →
      validatePipelineGo policy cur (s ++ rest) = validatePipelineGo policy (cur ++ s) rest := by
  intro s
  induction s with
  | nil => intro cur rest _; simp
  | cons t s2 ih =>
    intro cur rest h
    obtain ⟨h1, h2, h3, h4⟩ := h t (by simp)
    rw [List.cons_append, validatePipelineGo.eq_def]
    simp only [h1, h2, h3, h4, if_neg, or_self, or_false, false_or, if_false]
    rw [ih (cur ++ [t]) rest (fun x hx => h x (by simp [hx]))]
    simp

/-- The inline splitter walks a pipe-free stage by accumulating it. -/
theorem splitInExecuteGo_stage :
    ∀ (s : List String) (acc : List (List String)) (cur rest : List String),
      (∀ t ∈ s, t ≠ "|") →
      splitInExecuteGo acc cur (s ++ rest) = splitInExecuteGo acc (cur ++ s) rest := by
  intro s
  induction s with
  | nil => intro acc cur rest _; simp
  | cons t s2 ih =>
    intro acc cur rest h
    have h1 := h t (by simp)
    rw [List.cons_append, splitInExecuteGo.eq_def]
    simp only [h1, if_neg, if_false]
    rw [ih acc (cur ++ [t]) rest (fun x hx => h x (by simp [hx]))]
    simp

/-- The inline splitter flushes a non-empty stage at a `|` token. -/
theorem splitInExecuteGo_step (s : List String) (acc : List (List String)) (rest : List String)
    (hsne : s ≠ []) (hs : ∀ t ∈ s, t ≠ "|") :
    splitInExecuteGo acc [] (s ++ "|" :: rest) = splitInExecuteGo (acc ++ [s]) [] rest := by
  rw [splitInExecuteGo_stage s acc [] ("|" :: rest) hs]
  rw [splitInExecuteGo.eq_def]
  rcases s with - | ⟨t0, ts⟩
  · exact absurd rfl hsne
  · simp

/-- The inline splitter flushes a non-empty final stage at end of input. -/
theorem splitInExecuteGo_last (s : List String) (acc : List (List String))
    (hsne : s ≠ []) (hs : ∀ t ∈ s, t ≠ "|") :
    splitInExecuteGo acc [] s = .ok (acc ++ [s]) := by
  rw [← List.append_nil s] at hs ⊢
  rw [splitInExecuteGo_stage s acc [] [] (by simpa using hs)]
  rw [splitInExecuteGo.eq_def]
  simp [hsne]

/-- Splitting a joined stage list, with or without a trailing `|`, recovers
exactly the stages. -/
theorem splitInExecuteGo_join (stages : List (List String)) :
    stages ≠ [] →
    (∀ s ∈ stages, s ≠ [] ∧ ∀ t ∈ s, t ≠ "|") →
    ∀ (acc : List (List String)),
      splitInExecuteGo acc [] (joinWithPipe stages ++ ["|"]) = .ok (acc ++ stages) ∧
      splitInExecuteGo acc [] (joinWithPipe stages) = .ok (acc ++ stages) := by
  induction stages with
  | nil => intro hne _ _; exact absurd rfl hne
  | cons s rest ih =>
    intro _ hst acc
    obtain ⟨hsne, hs⟩ := hst s (by simp)
    rcases rest with - | ⟨s2, rest2⟩
    · constructor
      · rw [show joinWithPipe [s] ++ ["|"] = s ++ "|" :: [] from by simp [joinWithPipe]]
        rw [splitInExecuteGo_step s acc [] hsne hs]
        simp [splitInExecuteGo]
      · rw [show joinWithPipe [s] = s from rfl]
        exact splitInExecuteGo_last s acc hsne hs
    · have hs2 : ∀ x ∈ s2 :: rest2, x ≠ [] ∧ ∀ t ∈ x, t ≠ "|" :=
        fun x hx => hst x (by simp [hx])
      have hjoin : joinWithPipe (s :: s2 :: rest2) = s ++ "|" :: joinWithPipe (s2 :: rest2) := rfl
      constructor
      · rw [hjoin, show (s ++ "|" :: joinWithPipe (s2 :: rest2)) ++ ["|"] =
            s ++ "|" :: (joinWithPipe (s2 :: rest2) ++ ["|"]) from by simp]
        rw [splitInExecuteGo_step s acc _ hsne hs]
        rw [(ih (by simp) hs2 (acc ++ [s])).1]
        simp
      · rw [hjoin, splitInExecuteGo_step s acc _ hsne hs]
        rw [(ih (by simp) hs2 (acc ++ [s])).2]
        simp

/-- `validate_pipeline` accepts a non-empty allowed stage followed by `|`. -/
theorem validatePipelineGo_step (policy : Policy) (s rest : List String)
    (hsne : s ≠ []) (hs : ∀ t ∈ s, t ≠ "|" ∧ t ≠ ";" ∧ t ≠ "&&" ∧ t ≠ "||")
    (hhead : isCommandAllowed policy (s.headD "") = true) :
    validatePipelineGo policy [] (s ++ "|" :: rest) = validatePipelineGo policy [] rest := by
  rw [validatePipelineGo_stage policy s [] ("|" :: rest) hs]
  rw [validatePipelineGo.eq_def]
  rcases s with - | ⟨t0, ts⟩
  · exact absurd rfl hsne
  · simp only [List.headD_cons] at hhead
    simp [hhead]

/-- `validate_pipeline` accepts a non-empty allowed final stage. -/
theorem validatePipelineGo_last (policy : Policy) (s : List String)
    (hsne : s ≠ []) (hs : ∀ t ∈ s, t ≠ "|" ∧ t ≠ ";" ∧ t ≠ "&&" ∧ t ≠ "||")
    (hhead : isCommandAllowed policy (s.headD "") = true) :
    validatePipelineGo policy [] s = .ok () := by
  rw [← List.append_nil s] at hs ⊢
  rw [validatePipelineGo_stage policy s [] [] (by simpa using hs)]
  rw [validatePipelineGo.eq_def]
  rcases s with - | ⟨t0, ts⟩
  · exact absurd rfl hsne
  · simp only [List.headD_cons] at hhead
    simp [hhead]

/-- A joined stage list of allowed stages validates, with or without a
trailing `|`. -/
theorem validatePipelineGo_join (policy : Policy) (stages : List (List String)) :
    stages ≠ [] →
    (∀ s ∈ stages, s ≠ [] ∧ ∀ t ∈ s, t ≠ "|" ∧ t ≠ ";" ∧ t ≠ "&&" ∧ t ≠ "||") →
    (∀ s ∈ stages, isCommandAllowed policy (s.headD "") = true) →
    validatePipelineGo policy [] (joinWithPipe stages ++ ["|"]) = .ok () ∧
    validatePipelineGo policy [] (joinWithPipe stages) = .ok () := by
  induction stages with
  | nil => intro hne _ _; exact absurd rfl hne
  | cons s rest ih =>
    intro _ hst hhd
    obtain ⟨hsne, hs⟩ := hst s (by simp)
    have hhead := hhd s (by simp)
    rcases rest with - | ⟨s2, rest2⟩
    · constructor
      · rw [show joinWithPipe [s] ++ ["|"] = s ++ "|" :: [] from by simp [joinWithPipe]]
        rw [validatePipelineGo_step policy s [] hsne hs hhead]
        rfl
      · rw [show joinWithPipe [s] = s from rfl]
        exact validatePipelineGo_last policy s hsne hs hhead
    · have hs2 : ∀ x ∈ s2 :: rest2, x ≠ [] ∧ ∀ t ∈ x, t ≠ "|" ∧ t ≠ ";" ∧ t ≠ "&&" ∧ t ≠ "||" :=
        fun x hx => hst x (by simp [hx])
      have hhd2 : ∀ x ∈ s2 :: rest2, isCommandAllowed policy (x.headD "") = true :=
        fun x hx => hhd x (by simp [hx])
      have hjoin : joinWithPipe (s :: s2 :: rest2) = s ++ "|" :: joinWithPipe (s2 :: rest2) := rfl
      constructor
      · rw [hjoin, show (s ++ "|" :: joinWithPipe (s2 :: rest2)) ++ ["|"] =
            s ++ "|" :: (joinWithPipe (s2 :: rest2) ++ ["|"]) from by simp]
        rw [validatePipelineGo_step policy s _ hsne hs hhead]
        exact (ih (by simp) hs2 hhd2).1
      · rw [hjoin, validatePipelineGo_step policy s _ hsne hs hhead]
        exact (ih (by simp) hs2 hhd2).2

/-- Preprocessing is the identity on tokens that are `|` or contain no `|`. -/
theorem preprocessCommand_id (l : List String)
    (h : ∀ t ∈ l, t = "|" ∨ t.data.contains '|' = false) : preprocessCommand l = l := by
  induction l with
  | nil => rfl
  | cons t rest ih =>
    have hstep : preprocessCommand (t :: rest) =
        preprocessCommand [t] ++ preprocessCommand rest := by
      unfold preprocessCommand
      simp
    rw [hstep, ih (fun x hx => h x (by simp [hx]))]
    have ht : preprocessCommand [t] = [t] := by
      rcases h t (by simp) with ht | ht
      · subst ht
        rfl
      · by_cases hp : t = "||" ∨ t = "&&" ∨ t = ";"
        · simp [preprocessCommand, hp]
        · have htm : '|' ∉ t.data := by simpa using ht
          simp [preprocessCommand, hp, htm]
    rw [ht]
    rfl

/-- Cleaning is the identity on lists without empty strings. -/
theorem cleanCommand_id (l : List String) (h : ∀ t ∈ l, t ≠ "") : cleanCommand l = l := by
  unfold cleanCommand
  rw [List.filter_eq_self.mpr]
  intro a ha
  simp [h a ha]

/-- Every token of a joined stage list is a `|` marker or a stage token. -/
theorem joinWithPipe_mem :
    ∀ (stages : List (List String)) (t : String), t ∈ joinWithPipe stages →
      t = "|" ∨ ∃ s ∈ stages, t ∈ s := by
  intro stages
  induction stages with
  | nil => intro t ht; simp [joinWithPipe] at ht
  | cons s rest ih =>
    intro t ht
    rcases rest with - | ⟨s2, rest2⟩
    · exact Or.inr ⟨s, by simp, ht⟩
    · rw [show joinWithPipe (s :: s2 :: rest2) = s ++ "|" :: joinWithPipe (s2 :: rest2) from rfl]
        at ht
      rcases List.mem_append.mp ht with ht | ht
      · exact Or.inr ⟨s, by simp, ht⟩
      · rcases List.mem_cons.mp ht with ht | ht
        · exact Or.inl ht
        · rcases ih t ht with h | ⟨x, hx, htx⟩
          · exact Or.inl h
          · exact Or.inr ⟨x, by simp [hx], htx⟩

/-- C10 fails in the single-stage case: `["echo","hi","|"]` (one non-empty
stage with an allowed head, then a trailing pipe) runs as a one-stage
*pipeline*, so a non-zero exit becomes the pipeline failure error, while the
same command without the trailing `|` takes the single-command path and
returns the exit status with a null error. -/
theorem c10_counterexample :
    isCommandAllowed pEchoCat "echo" = true ∧
    (executeFn envBoom ["echo", "hi", "|"] "/tmp" none none).1.error =
      some "Command failed with exit code 2" ∧
    (executeFn envBoom ["echo", "hi"] "/tmp" none none).1.error = none ∧
    (executeFn envBoom ["echo", "hi", "|"] "/tmp" none none).1 ≠
      (executeFn envBoom ["echo", "hi"] "/tmp" none none).1 := by
  refine ⟨rfl, rfl, rfl, ?_⟩
  intro hcontra
  have h1 : (executeFn envBoom ["echo", "hi", "|"] "/tmp" none none).1.error =
      some "Command failed with exit code 2" := rfl
  have h2 : (executeFn envBoom ["echo", "hi"] "/tmp" none none).1.error = none := rfl
  rw [hcontra, h2] at h1
  exact Option.noConfusion h1

/-- C10 (amended): for stages of non-blank, operator-free tokens with allowed
heads, a trailing `|` is accepted by `validate_pipeline` (the empty final
accumulated stage is skipped), the inline splitter emits exactly the non-empty
stages — the same stages as without the trailing `|` — and no empty-command
error is raised; when at least two stages remain, `execute` behaves exactly as
on the same command without the trailing `|`.  (With a single stage the
trailing `|` still forces the pipeline path, which differs from the plain
single-command path, e.g. on non-zero exit codes.) -/
theorem c10_amended (policy : Policy) (stages : List (List String))
    (hne : stages ≠ [])
    (hstages : ∀ s ∈ stages, s ≠ [] ∧ ∀ t ∈ s,
      t.data.contains '|' = false ∧ t ≠ ";" ∧ t ≠ "&&" ∧ t ≠ "||" ∧ t ≠ "")
    (hheads : ∀ s ∈ stages, isCommandAllowed policy (s.headD "") = true) :
    validatePipeline policy (joinWithPipe stages ++ ["|"]) = .ok () ∧
    splitInExecute (joinWithPipe stages ++ ["|"]) = .ok stages ∧
    splitInExecute (joinWithPipe stages) = .ok stages ∧
    (2 ≤ stages.length → ∀ (env : Env) (directory : String) (stdin : Option String)
      (timeout : Option Nat), env.policy = policy →
      executeFn env (joinWithPipe stages ++ ["|"]) directory stdin timeout =
        executeFn env (joinWithPipe stages) directory stdin timeout) := by
  have hpipe_ne : ∀ (t : String), t.data.contains '|' = false → t ≠ "|" := by
    intro t hc heq
    subst heq
    exact absurd hc (by decide)
  have hsp : ∀ s ∈ stages, s ≠ [] ∧ ∀ t ∈ s, t ≠ "|" := by
    intro s hsm
    obtain ⟨h1, h2⟩ := hstages s hsm
    exact ⟨h1, fun t ht => hpipe_ne t (h2 t ht).1⟩
  have hvl : ∀ s ∈ stages, s ≠ [] ∧ ∀ t ∈ s, t ≠ "|" ∧ t ≠ ";" ∧ t ≠ "&&" ∧ t ≠ "||" := by
    intro s hsm
    obtain ⟨h1, h2⟩ := hstages s hsm
    refine ⟨h1, fun t ht => ?_⟩
    obtain ⟨hc, h3, h4, h5, -⟩ := h2 t ht
    exact ⟨hpipe_ne t hc, h3, h4, h5⟩
  have hsplit := splitInExecuteGo_join stages hne hsp []
  have hval := validatePipelineGo_join policy stages hne hvl hheads
  refine ⟨hval.1, by simpa [splitInExecute] using hsplit.1,
          by simpa [splitInExecute] using hsplit.2, ?_⟩
  intro hlen env directory stdin timeout henv
  subst henv
  have hmem1 : ∀ t ∈ joinWithPipe stages ++ ["|"], t = "|" ∨ t.data.contains '|' = false := by
    intro t ht
    rcases List.mem_append.mp ht with ht | ht
    · rcases joinWithPipe_mem stages t ht with h | ⟨s, hsm, hts⟩
      · exact Or.inl h
      · exact Or.inr ((hstages s hsm).2 t hts).1
    · simp at ht
      exact Or.inl ht
  have hmem2 : ∀ t ∈ joinWithPipe stages, t = "|" ∨ t.data.contains '|' = false := by
    intro t ht
    exact hmem1 t (List.mem_append.mpr (Or.inl ht))
  have hblank1 : ∀ t ∈ joinWithPipe stages ++ ["|"], t ≠ "" := by
    intro t ht
    rcases List.mem_append.mp ht with ht | ht
    · rcases joinWithPipe_mem stages t ht with h | ⟨s, hsm, hts⟩
      · subst h; decide
      · exact ((hstages s hsm).2 t hts).2.2.2.2
    · simp at ht
      subst ht; decide
  have hblank2 : ∀ t ∈ joinWithPipe stages, t ≠ "" :=
    fun t ht => hblank1 t (List.mem_append.mpr (Or.inl ht))
  have hcl1 : cleanCommand (preprocessCommand (joinWithPipe stages ++ ["|"])) =
      joinWithPipe stages ++ ["|"] := by
    rw [preprocessCommand_id _ hmem1]
    exact cleanCommand_id _ hblank1
  have hcl2 : cleanCommand (preprocessCommand (joinWithPipe stages)) = joinWithPipe stages := by
    rw [preprocessCommand_id _ hmem2]
    exact cleanCommand_id _ hblank2
  obtain ⟨s, rest, hst⟩ : ∃ s rest, stages = s :: rest := by
    rcases stages with - | ⟨s, rest⟩
    · exact absurd rfl hne
    · exact ⟨s, rest, rfl⟩
  obtain ⟨s2, rest2, hrest⟩ : ∃ s2 rest2, rest = s2 :: rest2 := by
    rcases rest with - | ⟨s2, rest2⟩
    · rw [hst] at hlen; simp at hlen
    · exact ⟨s2, rest2, rfl⟩
  have hjoin : joinWithPipe stages = s ++ "|" :: joinWithPipe (s2 :: rest2) := by
    rw [hst, hrest]
    rfl
  have hne2 : joinWithPipe stages ≠ [] := by
    rw [hjoin]
    simp
  have hne1 : joinWithPipe stages ++ ["|"] ≠ [] := by simp
  have hcont2 : (joinWithPipe stages).contains "|" = true := by
    rw [hjoin]
    simp
  have hcont1 : (joinWithPipe stages ++ ["|"]).contains "|" = true := by
    simp
  have hv1 : validatePipeline env.policy (joinWithPipe stages ++ ["|"]) = Except.ok () := hval.1
  have hv2 : validatePipeline env.policy (joinWithPipe stages) = Except.ok () := hval.2
  have hs1 : splitInExecute (joinWithPipe stages ++ ["|"]) = Except.ok stages := by
    simpa [splitInExecute] using hsplit.1
  have hs2 : splitInExecute (joinWithPipe stages) = Except.ok stages := by
    simpa [splitInExecute] using hsplit.2
  unfold executeFn
  rcases hd : validateDirectory env (some directory) with e | u
  · rfl
  · dsimp only
    rw [hcl1, hcl2, if_neg hne1, if_neg hne2, if_pos hcont1, if_pos hcont2, hv1, hv2, hs1, hs2]

/-- Witness for `c10_amended` at the stages `[["echo","hi"],["cat"]]` under
the policy `{echo, cat}`. -/
theorem c10_witness :
    validatePipeline pEchoCat (joinWithPipe [["echo", "hi"], ["cat"]] ++ ["|"]) = .ok () ∧
    splitInExecute (joinWithPipe [["echo", "hi"], ["cat"]] ++ ["|"]) =
      .ok [["echo", "hi"], ["cat"]] ∧
    splitInExecute (joinWithPipe [["echo", "hi"], ["cat"]]) = .ok [["echo", "hi"], ["cat"]] ∧
    executeFn envA (joinWithPipe [["echo", "hi"], ["cat"]] ++ ["|"]) "/tmp" none none =
      executeFn envA (joinWithPipe [["echo", "hi"], ["cat"]]) "/tmp" none none := by
  obtain ⟨h1, h2, h3, h4⟩ := c10_amended pEchoCat [["echo", "hi"], ["cat"]] (by decide)
    (by decide) (by decide)
  exact ⟨h1, h2, h3, h4 (by decide) envA "/tmp" none none rfl⟩
